import Mathlib

/-!
Verification of the authorization printer
(src/slither/printers/functions/authorization.py,
PrinterWrittenVariablesAndAuthorization).

The development shallowly embeds the printer's core computations:

* the call-graph closure list built in get_msg_sender_checks
  (all_internal_calls targets filtered to Function objects, plus the
  function itself, plus its Function-valued modifiers);
* the msg.sender guard extraction over the flattened control-flow nodes;
* the write-set name filtering and the sorted row rendering of output.

The slither core library (Function.all_internal_calls and friends) is not
part of this repository's sources; where the printer calls into it, the
corresponding definition is modelled from the specification and marked as
such in its doc comment.
-/

namespace Slither

/-- A call target or attached modifier as the program model hands it to the
printer: either a reference to a known function (an index into the program's
function list, playing the role of a Python Function object, for which
isinstance(x, Function) is true) or some other entity (for which the
isinstance test is false). -/
inductive CallTarget where
  | func (i : Nat)
  | unresolved (tag : Nat)
deriving DecidableEq

/-- A control-flow node of a function body, with the fields the printer
reads: the two conditional predicates, the names of the solidity variables
read on the node, and the rendered text str(n.expression). -/
structure Node where
  contains_if : Bool
  contains_require_or_assert : Bool
  solidity_variables_read : List String
  expression : String
deriving DecidableEq

/-- An entry of the transitive state-variables-written query: a variable
object identity together with its name (none models a Python-falsy name,
i.e. a missing name). -/
structure WrittenVar where
  vid : Nat
  name : Option String
deriving DecidableEq

/-- A function record of the program model, with exactly the data the
printer consumes.  The field all_state_variables_written holds the result
of the program model's transitive write query for this function (a single
query, per the specification), listing possibly-unnamed variable objects. -/
structure Function where
  name : String
  internal_calls : List CallTarget
  modifiers : List CallTarget
  nodes : List Node
  all_state_variables_written : List WrittenVar
deriving DecidableEq

/-- A program is a finite list of function records; call targets refer to
functions by index. -/
abbrev Program := List Function

/-- The default function record used for an index that does not refer to a
function of the program (empty body, no calls, no modifiers). -/
def defaultFunction : Function := ⟨"", [], [], [], []⟩

/-- Function lookup by index. -/
def fnOf (p : Program) (i : Nat) : Function := p.getD i defaultFunction

/-- The indices among a list of call targets that resolve to known
functions; this models the isinstance(x, Function) filters of the printer
(unresolvable entries are dropped). -/
def resolvedTargets (l : List CallTarget) : List Nat :=
  l.filterMap fun t =>
    match t with
    | CallTarget.func i => some i
    | CallTarget.unresolved _ => none

/-- The resolved direct internal-call targets of function i. -/
def succsOf (p : Program) (i : Nat) : List Nat :=
  resolvedTargets (fnOf p i).internal_calls

/-- The internal-call edge relation of the program: an edge from a to b
when b is a resolved direct internal-call target of a. -/
def edge (p : Program) (a b : Nat) : Prop :=
  CallTarget.func b ∈ (fnOf p a).internal_calls

/-- Every resolved call target mentioned anywhere in the program; a finite
universe bounding the worklist exploration. -/
def allTargetsL (p : Program) : List Nat :=
  (p.map fun f => resolvedTargets f.internal_calls).flatten

/-- One round of the visited-set worklist: keep the visited list S and
append, deduplicated, those direct successors of members of S that are not
already in S. -/
def stepR (p : Program) (S : List Nat) : List Nat :=
  S ++ ((S.map (succsOf p)).flatten.filter fun x => decide (x ∉ S)).dedup

/-- Iterate the worklist round a fixed number of times. -/
def iterR (p : Program) : Nat → List Nat → List Nat
  | 0, S => S
  | n + 1, S => iterR p n (stepR p S)

/-- Enough worklist rounds to reach a fixed point: one more than the size
of the target universe. -/
def fuelOf (p : Program) : Nat := (allTargetsL p).length + 1

/-- Modelled from the spec: Function.all_internal_calls of the slither core
(not part of this repository's sources) — the transitive internal-call
query used by the printer: every function reachable from function i through
resolved internal-call edges (direct and indirect), visited-set
deduplicated, in a deterministic order.  Unresolvable call targets are
omitted, which also plays the role of the printer's isinstance filter on
the returned targets. -/
def all_internal_calls (p : Program) (i : Nat) : List Nat :=
  iterR p (fuelOf p) (succsOf p i).dedup

/-- The list all_functions built by get_msg_sender_checks: the resolved
transitive internal-call targets, then the function itself, then its
resolved modifiers (in the source's concatenation order). -/
def closureList (p : Program) (i : Nat) : List Nat :=
  all_internal_calls p i ++ [i] ++ resolvedTargets (fnOf p i).modifiers

/-- The flattening of all control-flow nodes of all functions of the
closure list (all_nodes in the source: per-function node lists, joined). -/
def closureNodes (p : Program) (i : Nat) : List Node :=
  ((closureList p i).map fun j => (fnOf p j).nodes).flatten

/-- PrinterWrittenVariablesAndAuthorization.get_msg_sender_checks: filter
the flattened nodes to conditional ones (if sites or require/assert
sites), keep those whose read solidity variables include "msg.sender", and
render each survivor's expression text. -/
def get_msg_sender_checks (p : Program) (i : Nat) : List String :=
  let all_conditional_nodes :=
    (closureNodes p i).filter fun n =>
      n.contains_if || n.contains_require_or_assert
  (all_conditional_nodes.filter fun n =>
      n.solidity_variables_read.contains "msg.sender").map
    fun n => n.expression

/-- The combined per-node guard test (conditional and reading
msg.sender); a node of the closure contributes to the guard list exactly
when this holds. -/
def qualifies (n : Node) : Bool :=
  (n.contains_if || n.contains_require_or_assert) &&
    n.solidity_variables_read.contains "msg.sender"

/-- The name of a written-variable entry when it is Python-truthy (present
and non-empty), and none otherwise; models the comprehension filter
"if v.name" of the printer. -/
def truthyName (v : WrittenVar) : Option String :=
  match v.name with
  | some s => if s = "" then none else some s
  | none => none

/-- The list comprehension of output: the truthy names of the entries
returned by the transitive state-variables-written query. -/
def state_variables_written (p : Program) (i : Nat) : List String :=
  (fnOf p i).all_state_variables_written.filterMap truthyName

/-- Boolean string comparison used for sorting, mirroring Python's sorted
on a list of str (lexicographic order). -/
def strLe (a b : String) : Bool := decide (a ≤ b)

/-- Python's sorted on a list of strings. -/
def sortedStrings (l : List String) : List String := l.mergeSort strLe

/-- The repr of a quote-free string as Python renders it inside str(list). -/
def pyStrRepr (s : String) : String := "'" ++ s ++ "'"

/-- Python's str applied to a list of (quote-free) strings: "[]" when
empty, otherwise the reprs joined by ", " inside brackets. -/
def pyListStr (l : List String) : String :=
  "[" ++ String.intercalate ", " (l.map pyStrRepr) ++ "]"

/-- The sorted guard list of a function's record (sorted(msg_sender_condition)
in output). -/
def sortedGuards (p : Program) (i : Nat) : List String :=
  sortedStrings (get_msg_sender_checks p i)

/-- The sorted write list of a function's record
(sorted(state_variables_written) in output). -/
def sortedWrites (p : Program) (i : Nat) : List String :=
  sortedStrings (state_variables_written p i)

/-- The row output emits per function: name, rendered sorted write list,
rendered sorted guard list. -/
def functionRow (p : Program) (i : Nat) : List String :=
  [(fnOf p i).name, pyListStr (sortedWrites p i), pyListStr (sortedGuards p i)]

/-- A contract state variable as the state-variable table of output reads
it: its name, its type rendered to text when present (none models a falsy
type), its visibility when the attribute exists (none models a missing
attribute), and its declared storage location when the attribute exists and
is truthy (none models a missing attribute, some "" an empty location). -/
structure StateVar where
  name : String
  type : Option String
  visibility : Option String
  location : Option String
deriving DecidableEq

/-- The four-column state-variable row built by output: missing type and
missing visibility render as "Unknown", a missing or empty location renders
as "default". -/
def stateVarRow (v : StateVar) : List String :=
  [v.name,
   match v.type with
   | some t => t
   | none => "Unknown",
   match v.visibility with
   | some s => s
   | none => "Unknown",
   match v.location with
   | some l => if l = "" then "default" else l
   | none => "default"]

theorem mem_resolvedTargets {l : List CallTarget} {t : Nat} :
    t ∈ resolvedTargets l ↔ CallTarget.func t ∈ l := by
  constructor
  · intro h
    rcases List.mem_filterMap.mp h with ⟨c, hc, he⟩
    cases c with
    | func i =>
        have hit : i = t := Option.some.inj he
        exact hit ▸ hc
    | unresolved tag => exact absurd he (by simp)
  · intro h
    exact List.mem_filterMap.mpr ⟨CallTarget.func t, h, rfl⟩

theorem mem_succsOf {p : Program} {a b : Nat} :
    b ∈ succsOf p a ↔ edge p a b :=
  mem_resolvedTargets

theorem succsOf_subset_allTargetsL (p : Program) (a : Nat) :
    succsOf p a ⊆ allTargetsL p := by
  intro x hx
  by_cases h : a < p.length
  · apply List.mem_flatten.mpr
    refine ⟨resolvedTargets (fnOf p a).internal_calls, ?_, hx⟩
    apply List.mem_map.mpr
    refine ⟨fnOf p a, ?_, rfl⟩
    rw [fnOf, List.getD_eq_getElem _ _ h]
    exact List.getElem_mem h
  · have hd : fnOf p a = defaultFunction :=
      List.getD_eq_default _ _ (Nat.le_of_not_lt h)
    rw [succsOf, hd] at hx
    exact absurd hx (List.not_mem_nil x)

theorem subset_stepR (p : Program) (S : List Nat) : S ⊆ stepR p S :=
  List.subset_append_left _ _

theorem mem_stepR {p : Program} {S : List Nat} {x : Nat} (h : x ∈ stepR p S) :
    x ∈ S ∨ ∃ y ∈ S, x ∈ succsOf p y := by
  rcases List.mem_append.mp h with h | h
  · exact Or.inl h
  · right
    have h1 := List.mem_dedup.mp h
    have h2 := (List.mem_filter.mp h1).1
    rcases List.mem_flatten.mp h2 with ⟨l, hl, hx⟩
    rcases List.mem_map.mp hl with ⟨y, hy, rfl⟩
    exact ⟨y, hy, hx⟩

theorem stepR_nodup {p : Program} {S : List Nat} (h : S.Nodup) :
    (stepR p S).Nodup := by
  apply List.Nodup.append h (List.nodup_dedup _)
  intro x hxS hx
  have hdec := (List.mem_filter.mp (List.mem_dedup.mp hx)).2
  exact (of_decide_eq_true hdec) hxS

theorem stepR_subset {p : Program} {S V : List Nat} (hSV : S ⊆ V)
    (hV : ∀ a, succsOf p a ⊆ V) : stepR p S ⊆ V := by
  intro x hx
  rcases mem_stepR hx with h | ⟨y, _, h⟩
  · exact hSV h
  · exact hV y h

theorem stepR_eq_self_iff (p : Program) (S : List Nat) :
    stepR p S = S ↔ ∀ y ∈ S, succsOf p y ⊆ S := by
  constructor
  · intro h y hy x hx
    by_contra hxS
    have hext : ((S.map (succsOf p)).flatten.filter
        fun z => decide (z ∉ S)).dedup = [] := by
      have hlen := congrArg List.length h
      rw [stepR, List.length_append] at hlen
      have h0 : (((S.map (succsOf p)).flatten.filter
          fun z => decide (z ∉ S)).dedup).length = 0 := by omega
      exact List.length_eq_zero.mp h0
    have hxf : x ∈ (S.map (succsOf p)).flatten :=
      List.mem_flatten.mpr ⟨succsOf p y, List.mem_map.mpr ⟨y, hy, rfl⟩, hx⟩
    have hxe : x ∈ ((S.map (succsOf p)).flatten.filter
        fun z => decide (z ∉ S)).dedup :=
      List.mem_dedup.mpr (List.mem_filter.mpr ⟨hxf, decide_eq_true hxS⟩)
    rw [hext] at hxe
    exact absurd hxe (List.not_mem_nil x)
  · intro h
    rw [stepR]
    have hfil : ((S.map (succsOf p)).flatten.filter
        fun z => decide (z ∉ S)) = [] := by
      apply List.filter_eq_nil_iff.mpr
      intro a ha hdec
      rcases List.mem_flatten.mp ha with ⟨l, hl, hal⟩
      rcases List.mem_map.mp hl with ⟨y, hy, rfl⟩
      exact (of_decide_eq_true hdec) (h y hy hal)
    rw [hfil]
    simp

theorem iterR_fix {p : Program} {S : List Nat} (h : stepR p S = S) :
    ∀ n, iterR p n S = S := by
  intro n
  induction n with
  | zero => rfl
  | succ n ih =>
      show iterR p n (stepR p S) = S
      rw [h]
      exact ih

theorem subset_iterR (p : Program) : ∀ n S, S ⊆ iterR p n S := by
  intro n
  induction n with
  | zero => exact fun S x h => h
  | succ n ih =>
      intro S x hx
      exact ih (stepR p S) (subset_stepR p S hx)

theorem iterR_nodup (p : Program) : ∀ n S, S.Nodup → (iterR p n S).Nodup := by
  intro n
  induction n with
  | zero => exact fun S h => h
  | succ n ih => exact fun S h => ih (stepR p S) (stepR_nodup h)

theorem iterR_transGen (p : Program) (f : Nat) :
    ∀ n S, (∀ x ∈ S, Relation.TransGen (edge p) f x) →
      ∀ x ∈ iterR p n S, Relation.TransGen (edge p) f x := by
  intro n
  induction n with
  | zero => exact fun S h => h
  | succ n ih =>
      intro S hS
      apply ih (stepR p S)
      intro x hx
      rcases mem_stepR hx with h | ⟨y, hy, h⟩
      · exact hS x h
      · exact Relation.TransGen.tail (hS y hy) (mem_succsOf.mp h)

theorem iterR_closed (p : Program) {V : List Nat}
    (hV : ∀ a, succsOf p a ⊆ V) :
    ∀ n S, S.Nodup → S ⊆ V → V.length + 1 ≤ n + S.length →
      ∀ y ∈ iterR p n S, succsOf p y ⊆ iterR p n S := by
  intro n
  induction n with
  | zero =>
      intro S hnd hSV hlen
      have hle := (List.subperm_of_subset hnd hSV).length_le
      exact absurd hlen (by omega)
  | succ n ih =>
      intro S hnd hSV hlen
      by_cases hfix : stepR p S = S
      · have hfixAll : iterR p (n + 1) S = S := iterR_fix hfix (n + 1)
        rw [hfixAll]
        exact (stepR_eq_self_iff p S).mp hfix
      · have hgrow : S.length + 1 ≤ (stepR p S).length := by
          rw [stepR, List.length_append]
          have hne : ((S.map (succsOf p)).flatten.filter
              fun z => decide (z ∉ S)).dedup ≠ [] := by
            intro h0
            apply hfix
            rw [stepR, h0, List.append_nil]
          have hpos := List.length_pos.mpr hne
          omega
        show ∀ y ∈ iterR p n (stepR p S), succsOf p y ⊆ iterR p n (stepR p S)
        exact ih (stepR p S) (stepR_nodup hnd) (stepR_subset hSV hV) (by omega)

theorem mem_all_internal_calls {p : Program} {f g : Nat} :
    g ∈ all_internal_calls p f ↔ Relation.TransGen (edge p) f g := by
  constructor
  · intro h
    refine iterR_transGen p f (fuelOf p) ((succsOf p f).dedup) ?_ g h
    intro x hx
    exact Relation.TransGen.single (mem_succsOf.mp (List.mem_dedup.mp hx))
  · intro h
    have hV : ∀ a, succsOf p a ⊆ allTargetsL p := succsOf_subset_allTargetsL p
    have hS : (succsOf p f).dedup ⊆ allTargetsL p :=
      fun x hx => hV f (List.mem_dedup.mp hx)
    have hclosed := iterR_closed p hV (fuelOf p) ((succsOf p f).dedup)
      (List.nodup_dedup _) hS (by simp only [fuelOf]; omega)
    have hstart : succsOf p f ⊆ all_internal_calls p f := by
      intro x hx
      exact subset_iterR p (fuelOf p) ((succsOf p f).dedup)
        (List.mem_dedup.mpr hx)
    induction h with
    | single hfg => exact hstart (mem_succsOf.mpr hfg)
    | tail hab hbc ih => exact hclosed _ ih (mem_succsOf.mpr hbc)

theorem all_internal_calls_nodup (p : Program) (f : Nat) :
    (all_internal_calls p f).Nodup :=
  iterR_nodup p (fuelOf p) _ (List.nodup_dedup _)

theorem mem_closureList_iff (p : Program) (f g : Nat) :
    g ∈ closureList p f ↔
      Relation.TransGen (edge p) f g ∨ g = f ∨
        CallTarget.func g ∈ (fnOf p f).modifiers := by
  unfold closureList
  simp only [List.mem_append, List.mem_singleton]
  rw [mem_all_internal_calls, mem_resolvedTargets]
  tauto

/-- C2: membership in the closure list built by get_msg_sender_checks is
exactly: a function transitively reachable from F through resolved
internal-call edges, or F itself, or the function backing a directly
attached modifier of F.  In particular the modifiers' own internal-call
chains are not expanded (one-hop modifier inclusion). -/
theorem c2_closure_exact (p : Program) (f g : Nat) :
    g ∈ closureList p f ↔
      Relation.TransGen (edge p) f g ∨ g = f ∨
        CallTarget.func g ∈ (fnOf p f).modifiers :=
  mem_closureList_iff p f g

theorem get_msg_sender_checks_eq (p : Program) (i : Nat) :
    get_msg_sender_checks p i =
      ((closureNodes p i).filter qualifies).map fun n => n.expression := by
  show (((closureNodes p i).filter fun n =>
      n.contains_if || n.contains_require_or_assert).filter fun n =>
        n.solidity_variables_read.contains "msg.sender").map
      (fun n => n.expression) = _
  rw [List.filter_filter]
  congr 1
  apply List.filter_congr
  intro n _
  unfold qualifies
  exact Bool.and_comm _ _

/-- C4: a string belongs to the guard list of F if and only if some node
of F's closure is conditional (an if site or a require/assert site), reads
the solidity variable msg.sender, and renders exactly that string; a
conditional node not reading msg.sender, or a msg.sender-reading node that
is not conditional, contributes nothing. -/
theorem c4_guard_filter (p : Program) (i : Nat) (t : String) :
    t ∈ get_msg_sender_checks p i ↔
      ∃ n ∈ closureNodes p i,
        (n.contains_if = true ∨ n.contains_require_or_assert = true) ∧
          "msg.sender" ∈ n.solidity_variables_read ∧ n.expression = t := by
  rw [get_msg_sender_checks_eq]
  simp only [List.mem_map, List.mem_filter, qualifies, Bool.and_eq_true,
    Bool.or_eq_true]
  constructor
  · rintro ⟨n, ⟨hn, hq, hr⟩, rfl⟩
    exact ⟨n, hn, hq, List.elem_iff.mp hr, rfl⟩
  · rintro ⟨n, hn, hq, hr, rfl⟩
    exact ⟨n, ⟨hn, hq, List.elem_iff.mpr hr⟩, rfl⟩

theorem strLe_trans : ∀ a b c : String, strLe a b → strLe b c → strLe a c := by
  intro a b c hab hbc
  exact decide_eq_true
    (le_trans (of_decide_eq_true hab) (of_decide_eq_true hbc))

theorem strLe_total : ∀ a b : String, strLe a b || strLe b a := by
  intro a b
  rcases le_total a b with h | h
  · simp [strLe, h]
  · simp [strLe, h]

theorem sortedStrings_sorted (l : List String) :
    (sortedStrings l).Sorted (· ≤ ·) := by
  have h := List.sorted_mergeSort strLe_trans strLe_total l
  exact List.Pairwise.imp (fun hab => of_decide_eq_true hab) h

theorem sortedStrings_perm (l : List String) :
    List.Perm (sortedStrings l) l :=
  List.mergeSort_perm l strLe

theorem sortedStrings_eq_of_perm {l₁ l₂ : List String}
    (h : List.Perm l₁ l₂) :
    sortedStrings l₁ = sortedStrings l₂ := by
  apply List.eq_of_perm_of_sorted
    (((sortedStrings_perm l₁).trans h).trans (sortedStrings_perm l₂).symm)
    (sortedStrings_sorted l₁) (sortedStrings_sorted l₂)

/-- C1 (amended): the guard list emitted in F's record is canonically
sorted, but it is not deduplicated: it is a permutation of the list with
one rendered expression per qualifying node occurrence of the closure
traversal, so identical texts rendered by multiple nodes each appear. -/
theorem c1_guards_sorted_per_occurrence (p : Program) (i : Nat) :
    (sortedGuards p i).Sorted (· ≤ ·) ∧
      List.Perm (sortedGuards p i)
        (((closureNodes p i).filter qualifies).map fun n => n.expression) := by
  constructor
  · exact sortedStrings_sorted _
  · rw [← get_msg_sender_checks_eq]
    exact sortedStrings_perm _

/-- A conditional node reading msg.sender, used by the counterexample
programs. -/
def guardNode : Node :=
  ⟨false, true, ["msg.sender"], "require(msg.sender == owner)"⟩

/-- Counterexample program for C1: one function, no calls and no
modifiers, whose body holds two distinct conditional nodes that render the
identical guard text. -/
def cexProgC1 : Program := [⟨"f", [], [], [guardNode, guardNode], []⟩]

/-- C1 counterexample: the emitted guard list of the function of cexProgC1
contains the same rendered text twice, so it is not duplicate-free. -/
theorem c1_cex_not_nodup : ¬ (sortedGuards cexProgC1 0).Nodup := by
  intro h
  have h2 : (get_msg_sender_checks cexProgC1 0).Nodup :=
    (sortedStrings_perm _).nodup_iff.mp h
  have h3 : ¬ (get_msg_sender_checks cexProgC1 0).Nodup := by decide
  exact h3 h2

/-- C3 (amended): for two functions that call exactly each other, the
closure computation terminates and, as a set, the closure is exactly
{F, G} together with F's resolved modifiers; G occurs exactly once in the
traversal list, but F itself occurs twice (once as a call target reachable
through the cycle and once as the function itself), so F's own guard
expressions are contributed twice. -/
theorem c3_mutual_recursion (p : Program) (f g : Nat)
    (h1 : succsOf p f = [g]) (h2 : succsOf p g = [f]) (hfg : f ≠ g)
    (hmf : f ∉ resolvedTargets (fnOf p f).modifiers)
    (hmg : g ∉ resolvedTargets (fnOf p f).modifiers) :
    (∀ x, x ∈ closureList p f ↔
        x = f ∨ x = g ∨ x ∈ resolvedTargets (fnOf p f).modifiers) ∧
      (closureList p f).count f = 2 ∧ (closureList p f).count g = 1 := by
  have hstep1 : stepR p [g] = [g, f] := by
    unfold stepR
    simp [h2, hfg]
  have hstep2 : stepR p [g, f] = [g, f] := by
    rw [stepR_eq_self_iff]
    intro y hy
    rcases List.mem_cons.mp hy with rfl | hy2
    · rw [h2]
      intro z hz
      rcases List.mem_singleton.mp hz with rfl
      simp
    · rcases List.mem_singleton.mp hy2 with rfl
      rw [h1]
      intro z hz
      rcases List.mem_singleton.mp hz with rfl
      simp
  have haic : all_internal_calls p f = [g, f] := by
    show iterR p ((allTargetsL p).length + 1) (succsOf p f).dedup = [g, f]
    have hd : (succsOf p f).dedup = [g] := by rw [h1]; simp
    rw [hd]
    show iterR p (allTargetsL p).length (stepR p [g]) = [g, f]
    rw [hstep1]
    exact iterR_fix hstep2 _
  have hcl : closureList p f =
      [g, f] ++ [f] ++ resolvedTargets (fnOf p f).modifiers := by
    unfold closureList
    rw [haic]
  refine ⟨?_, ?_, ?_⟩
  · intro x
    rw [hcl]
    simp only [List.mem_append, List.mem_cons, List.mem_singleton,
      List.not_mem_nil, or_false]
    tauto
  · rw [hcl, List.count_append, List.count_append]
    have hM : (resolvedTargets (fnOf p f).modifiers).count f = 0 :=
      List.count_eq_zero.mpr hmf
    have hgf : ([g, f] : List Nat).count f = 1 := by
      simp [List.count_cons, hfg, Ne.symm hfg]
    have hsf : ([f] : List Nat).count f = 1 := by simp
    omega
  · rw [hcl, List.count_append, List.count_append]
    have hM : (resolvedTargets (fnOf p f).modifiers).count g = 0 :=
      List.count_eq_zero.mpr hmg
    have hgg : ([g, f] : List Nat).count g = 1 := by
      simp [List.count_cons, hfg, Ne.symm hfg]
    have hsg : ([f] : List Nat).count g = 0 := by
      simp [List.count_singleton, hfg, Ne.symm hfg]
    omega

/-- Counterexample program for C3: function 0 and function 1 call exactly
each other; function 0 carries the only control-flow node of the program,
a require site reading msg.sender. -/
def cexProgC3 : Program :=
  [⟨"f", [CallTarget.func 1], [], [guardNode], []⟩,
   ⟨"g", [CallTarget.func 0], [], [], []⟩]

/-- C3 counterexample: in the mutual-recursion program the whole program
has exactly one control-flow node, yet its rendered guard text appears
twice in the guard list of function 0 — the entry function's nodes are
processed twice, not once. -/
theorem c3_cex_double_contribution :
    (fnOf cexProgC3 0).nodes.length = 1 ∧
      (fnOf cexProgC3 1).nodes.length = 0 ∧
      (get_msg_sender_checks cexProgC3 0).count
        "require(msg.sender == owner)" = 2 := by
  decide

/-- Witness for the amended C3 theorem at the concrete mutual-recursion
program. -/
theorem c3_mutual_recursion_witness :
    succsOf cexProgC3 0 = [1] ∧ succsOf cexProgC3 1 = [0] ∧ (0 : Nat) ≠ 1 ∧
      (0 : Nat) ∉ resolvedTargets (fnOf cexProgC3 0).modifiers ∧
      (1 : Nat) ∉ resolvedTargets (fnOf cexProgC3 0).modifiers ∧
      ((∀ x, x ∈ closureList cexProgC3 0 ↔
          x = 0 ∨ x = 1 ∨ x ∈ resolvedTargets (fnOf cexProgC3 0).modifiers) ∧
        (closureList cexProgC3 0).count 0 = 2 ∧
        (closureList cexProgC3 0).count 1 = 1) :=
  ⟨by decide, by decide, by decide, by decide, by decide,
    c3_mutual_recursion cexProgC3 0 1 (by decide) (by decide) (by decide)
      (by decide) (by decide)⟩

theorem truthyName_eq_some {v : WrittenVar} {s : String} :
    truthyName v = some s ↔ v.name = some s ∧ s ≠ "" := by
  cases hv : v.name with
  | none => simp [truthyName, hv]
  | some t =>
      by_cases ht : t = ""
      · subst ht
        simp [truthyName, hv]
        intro h
        exact h.symm
      · simp only [truthyName, hv, if_neg ht, Option.some.injEq]
        constructor
        · intro h
          exact ⟨h, fun hs => ht (h.trans hs)⟩
        · rintro ⟨h, _⟩
          exact h

/-- C5 (amended): the emitted write list is canonically sorted and keeps
exactly one entry per named entry of the transitive write query (entries
lacking a name are excluded); it is not deduplicated by name, so two
distinct written variables sharing a name both appear. -/
theorem c5_writes_sorted_named (p : Program) (i : Nat) :
    (sortedWrites p i).Sorted (· ≤ ·) ∧
      List.Perm (sortedWrites p i)
        ((fnOf p i).all_state_variables_written.filterMap truthyName) ∧
      (∀ s, s ∈ sortedWrites p i ↔
        ∃ v ∈ (fnOf p i).all_state_variables_written,
          v.name = some s ∧ s ≠ "") := by
  refine ⟨sortedStrings_sorted _, sortedStrings_perm _, ?_⟩
  intro s
  unfold sortedWrites
  rw [(sortedStrings_perm (state_variables_written p i)).mem_iff]
  unfold state_variables_written
  simp only [List.mem_filterMap]
  constructor
  · rintro ⟨v, hv, ht⟩
    rcases truthyName_eq_some.mp ht with ⟨hn, hs⟩
    exact ⟨v, hv, hn, hs⟩
  · rintro ⟨v, hv, hn, hs⟩
    exact ⟨v, hv, truthyName_eq_some.mpr ⟨hn, hs⟩⟩

/-- Counterexample program for C5: one function whose transitive write
query returns two distinct variable objects that share the name "x". -/
def cexProgC5 : Program :=
  [⟨"f", [], [], [], [⟨0, some "x"⟩, ⟨1, some "x"⟩]⟩]

/-- C5 counterexample: the emitted write list of the function of cexProgC5
holds the name "x" twice, so it is not deduplicated. -/
theorem c5_cex_not_nodup : ¬ (sortedWrites cexProgC5 0).Nodup := by
  intro h
  have h2 : (state_variables_written cexProgC5 0).Nodup :=
    (sortedStrings_perm _).nodup_iff.mp h
  have h3 : ¬ (state_variables_written cexProgC5 0).Nodup := by decide
  exact h3 h2

/-- C6: a function with no internal calls and no attached modifiers has
the singleton closure list [F]. -/
theorem c6_closure_singleton (p : Program) (f : Nat)
    (hc : (fnOf p f).internal_calls = [])
    (hm : (fnOf p f).modifiers = []) :
    closureList p f = [f] := by
  have hs : succsOf p f = [] := by rw [succsOf, hc]; rfl
  have hfix : stepR p ([] : List Nat) = [] := by
    rw [stepR_eq_self_iff]
    intro y hy
    exact absurd hy (List.not_mem_nil y)
  have haic : all_internal_calls p f = [] := by
    show iterR p (fuelOf p) (succsOf p f).dedup = []
    rw [hs]
    exact iterR_fix hfix _
  unfold closureList
  rw [haic, hm]
  rfl

/-- Witness program for C6: a single function with no calls, no modifiers. -/
def progC6 : Program := [⟨"f", [], [], [], []⟩]

/-- Witness for C6 at the concrete one-function program. -/
theorem c6_closure_singleton_witness :
    (fnOf progC6 0).internal_calls = [] ∧ (fnOf progC6 0).modifiers = [] ∧
      closureList progC6 0 = [0] :=
  ⟨rfl, rfl, c6_closure_singleton progC6 0 rfl rfl⟩

theorem succsOf_congr (p q : Program) (hlen : p.length = q.length)
    (hcalls : ∀ a, a < p.length → succsOf p a = succsOf q a) :
    ∀ a, succsOf p a = succsOf q a := by
  intro a
  by_cases h : a < p.length
  · exact hcalls a h
  · have hp : fnOf p a = defaultFunction :=
      List.getD_eq_default _ _ (Nat.le_of_not_lt h)
    have hq : fnOf q a = defaultFunction :=
      List.getD_eq_default _ _ (by omega)
    rw [succsOf, succsOf, hp, hq]

theorem transGen_congr {r s : Nat → Nat → Prop}
    (h : ∀ a b, r a b ↔ s a b) {a b : Nat}
    (ht : Relation.TransGen r a b) : Relation.TransGen s a b := by
  induction ht with
  | single h1 => exact Relation.TransGen.single ((h _ _).mp h1)
  | tail h1 h2 ih => exact Relation.TransGen.tail ih ((h _ _).mp h2)

/-- C7: call targets and modifiers that do not resolve to known functions
are silently omitted: two programs of the same size whose resolved call
targets and resolved modifiers agree — however many unresolvable entries
either carries — have the same closure membership; no error is raised (the
computation is total) and the rest of the closure is unaffected. -/
theorem c7_unresolved_silently_omitted (p q : Program) (f : Nat)
    (hlen : p.length = q.length)
    (hcalls : ∀ a, a < p.length → succsOf p a = succsOf q a)
    (hmods : resolvedTargets (fnOf p f).modifiers =
      resolvedTargets (fnOf q f).modifiers) :
    ∀ g, (g ∈ closureList p f ↔ g ∈ closureList q f) := by
  have hs := succsOf_congr p q hlen hcalls
  have hedge : ∀ a b, edge p a b ↔ edge q a b := by
    intro a b
    rw [← mem_succsOf, ← mem_succsOf, hs a]
  have hmodm : ∀ x, (CallTarget.func x ∈ (fnOf p f).modifiers ↔
      CallTarget.func x ∈ (fnOf q f).modifiers) := by
    intro x
    rw [← mem_resolvedTargets, ← mem_resolvedTargets, hmods]
  intro g
  rw [mem_closureList_iff, mem_closureList_iff]
  constructor
  · rintro (h | h | h)
    · exact Or.inl (transGen_congr hedge h)
    · exact Or.inr (Or.inl h)
    · exact Or.inr (Or.inr ((hmodm g).mp h))
  · rintro (h | h | h)
    · exact Or.inl (transGen_congr (fun a b => (hedge a b).symm) h)
    · exact Or.inr (Or.inl h)
    · exact Or.inr (Or.inr ((hmodm g).mpr h))

/-- Witness program for C7, the resolved-only variant: function 0 calls
function 1. -/
def progC7p : Program :=
  [⟨"f", [CallTarget.func 1], [], [], []⟩, ⟨"g", [], [], [], []⟩]

/-- Witness program for C7, the cluttered variant: as progC7p but with an
unresolvable call target and an unresolvable modifier entry added. -/
def progC7q : Program :=
  [⟨"f", [CallTarget.func 1, CallTarget.unresolved 7],
    [CallTarget.unresolved 9], [], []⟩, ⟨"g", [], [], [], []⟩]

/-- Witness for C7 at the two concrete programs. -/
theorem c7_unresolved_silently_omitted_witness :
    progC7p.length = progC7q.length ∧
      (∀ a, a < progC7p.length → succsOf progC7p a = succsOf progC7q a) ∧
      resolvedTargets (fnOf progC7p 0).modifiers =
        resolvedTargets (fnOf progC7q 0).modifiers ∧
      ∀ g, (g ∈ closureList progC7p 0 ↔ g ∈ closureList progC7q 0) :=
  ⟨rfl, by decide, rfl,
    c7_unresolved_silently_omitted progC7p progC7q 0 rfl (by decide) rfl⟩

/-- C8: a function whose transitive write query returns nothing and whose
closure holds no qualifying guard node is emitted with explicit empty
collections: its row is the function name followed by the two rendered
empty lists "[]" — present fields, not omissions. -/
theorem c8_empty_sets_explicit (p : Program) (i : Nat)
    (hw : (fnOf p i).all_state_variables_written = [])
    (hg : ∀ n ∈ closureNodes p i, ¬ qualifies n) :
    functionRow p i = [(fnOf p i).name, "[]", "[]"] := by
  have hw2 : state_variables_written p i = [] := by
    unfold state_variables_written
    rw [hw]
    rfl
  have hg2 : get_msg_sender_checks p i = [] := by
    rw [get_msg_sender_checks_eq]
    have hfil : (closureNodes p i).filter qualifies = [] :=
      List.filter_eq_nil_iff.mpr hg
    rw [hfil]
    rfl
  have hnil : sortedStrings [] = [] := by
    unfold sortedStrings
    exact List.mergeSort_nil
  unfold functionRow sortedWrites sortedGuards
  rw [hw2, hg2, hnil]
  rfl

/-- Witness program for C8: one function with no writes whose only node is
conditional but reads the variable x, not msg.sender. -/
def progC8 : Program :=
  [⟨"f", [], [], [⟨true, false, ["x"], "x > 0"⟩], []⟩]

/-- Witness for C8 at the concrete program. -/
theorem c8_empty_sets_explicit_witness :
    (fnOf progC8 0).all_state_variables_written = [] ∧
      (∀ n ∈ closureNodes progC8 0, ¬ qualifies n) ∧
      functionRow progC8 0 = [(fnOf progC8 0).name, "[]", "[]"] :=
  ⟨rfl, by decide, c8_empty_sets_explicit progC8 0 rfl (by decide)⟩

/-- C9: the emitted row depends only on the program-model input as
unordered data: inputs presenting the same function name, the same
multiset of written-variable names, and the same multiset of guard texts
(in whatever enumeration order) yield identical rows; the computation is a
pure function of the input, with no other source of variation. -/
theorem c9_deterministic_rows (p q : Program) (i j : Nat)
    (hname : (fnOf p i).name = (fnOf q j).name)
    (hw : List.Perm (state_variables_written p i)
      (state_variables_written q j))
    (hg : List.Perm (get_msg_sender_checks p i)
      (get_msg_sender_checks q j)) :
    functionRow p i = functionRow q j := by
  unfold functionRow sortedWrites sortedGuards
  rw [hname, sortedStrings_eq_of_perm hw, sortedStrings_eq_of_perm hg]

/-- Guard node variant a, for the C9 witness. -/
def nodeA : Node := ⟨true, false, ["msg.sender"], "msg.sender == a"⟩

/-- Guard node variant b, for the C9 witness. -/
def nodeB : Node := ⟨false, true, ["msg.sender"], "msg.sender == b"⟩

/-- Witness program for C9, one enumeration order. -/
def progC9p : Program :=
  [⟨"f", [], [], [nodeA, nodeB], [⟨0, some "x"⟩, ⟨1, some "y"⟩]⟩]

/-- Witness program for C9, the reversed enumeration order. -/
def progC9q : Program :=
  [⟨"f", [], [], [nodeB, nodeA], [⟨1, some "y"⟩, ⟨0, some "x"⟩]⟩]

/-- Witness for C9 at the two concrete enumeration orders. -/
theorem c9_deterministic_rows_witness :
    (fnOf progC9p 0).name = (fnOf progC9q 0).name ∧
      List.Perm (state_variables_written progC9p 0)
        (state_variables_written progC9q 0) ∧
      List.Perm (get_msg_sender_checks progC9p 0)
        (get_msg_sender_checks progC9q 0) ∧
      functionRow progC9p 0 = functionRow progC9q 0 :=
  ⟨rfl, by decide, by decide,
    c9_deterministic_rows progC9p progC9q 0 0 rfl (by decide) (by decide)⟩

/-- C10: a state-variable row always carries four populated columns, the
first being the variable's name; a missing type renders as "Unknown", a
missing visibility attribute renders as "Unknown", and a missing or empty
storage location renders as "default". -/
theorem c10_state_var_row (v : StateVar) :
    (stateVarRow v).length = 4 ∧
      (stateVarRow v).getD 0 "" = v.name ∧
      (v.type = none → (stateVarRow v).getD 1 "" = "Unknown") ∧
      (v.visibility = none → (stateVarRow v).getD 2 "" = "Unknown") ∧
      ((v.location = none ∨ v.location = some "") →
        (stateVarRow v).getD 3 "" = "default") := by
  refine ⟨rfl, rfl, ?_, ?_, ?_⟩
  · intro h
    unfold stateVarRow
    rw [h]
    rfl
  · intro h
    unfold stateVarRow
    rw [h]
    rfl
  · rintro (h | h)
    · unfold stateVarRow
      rw [h]
      rfl
    · unfold stateVarRow
      rw [h]
      rfl

/-- Witness for C10 at a state variable missing all three attributes. -/
theorem c10_state_var_row_witness :
    (stateVarRow ⟨"x", none, none, none⟩).length = 4 ∧
      (stateVarRow ⟨"x", none, none, none⟩).getD 0 "" = "x" ∧
      (stateVarRow ⟨"x", none, none, none⟩).getD 1 "" = "Unknown" ∧
      (stateVarRow ⟨"x", none, none, none⟩).getD 2 "" = "Unknown" ∧
      (stateVarRow ⟨"x", none, none, none⟩).getD 3 "" = "default" := by
  have h := c10_state_var_row ⟨"x", none, none, none⟩
  exact ⟨h.1, h.2.1, h.2.2.1 rfl, h.2.2.2.1 rfl, h.2.2.2.2 (Or.inl rfl)⟩

end Slither
